import Mathlib

/-!
Verification of the huggingface/doc-builder markdown preprocessing pipeline
(`kit/preprocessors/*.js`).

Strings are modelled as `List Char` (named `Str` below); JavaScript string
operations (`slice`, `split`, `replace`, `includes`, …) are embedded as
executable functions on `Str`.  Regular expressions used by the source are a
small closed family (lazy tag matchers, prompt markers, split delimiters);
each one is embedded by a dedicated matching function that follows the
leftmost-match / lazy-body, or greedy-with-lookahead, semantics of the
concrete pattern it models.  External collaborators (the mdsvex markdown
renderer, highlight.js, btoa/encodeURIComponent, htmlparser2) are taken as
parameters of the embedded functions.
-/

/-- JavaScript strings are modelled as lists of characters. -/
abbrev Str := List Char

/-- Coerce a Lean string literal to the model type. -/
def strOf (s : String) : Str := s.data

/-- First index (in the given string) at which `pat` occurs as a substring,
`none` if it does not occur.  Model of `String.prototype.indexOf`-style
leftmost search. -/
def findIdxFrom (pat : Str) : Str → Option Nat
  | [] => if pat = [] then some 0 else none
  | c :: rest =>
    if pat.isPrefixOf (c :: rest) then some 0
    else (findIdxFrom pat rest).map (· + 1)

/-- Substring test, model of `String.prototype.includes`. -/
def containsSub (pat s : Str) : Bool := (findIdxFrom pat s).isSome

/-- Model of `String.prototype.replaceAll` with a plain-string pattern:
repeatedly replace the leftmost occurrence, continuing after the
replacement.  (For the empty pattern JavaScript inserts at every position;
the source only ever uses non-empty patterns, and we keep the function
total by returning the string unchanged in that case.) -/
def replaceSubF (pat repl : Str) : Nat → Str → Str
  | _, [] => []
  | 0, s => s
  | fuel + 1, c :: rest =>
    if pat ≠ [] ∧ pat.isPrefixOf (c :: rest) then
      repl ++ replaceSubF pat repl fuel ((c :: rest).drop pat.length)
    else
      c :: replaceSubF pat repl fuel rest

/-- `String.prototype.replaceAll` with a plain-string pattern.  The fuel
`s.length` is always sufficient: every step consumes at least one character
of the subject. -/
def replaceSub (pat repl : Str) (s : Str) : Str := replaceSubF pat repl s.length s

/-- `renderSvelteChars` from `kit/preprocessors/utils.js`: decodes the
escape sequences produced upstream. -/
def renderSvelteChars (code : Str) : Str :=
  replaceSub (strOf "&amp;num;") (strOf "#")
    (replaceSub (strOf "&amp;lt;") (strOf "<")
      (replaceSub (strOf "&amp;lcub;") (strOf "\x7b") code))

/-! ## `replaceAsync` (`kit/preprocessors/utils.js`)

`replaceAsync` runs `String.prototype.replace` twice over the same string
and the same pattern: a first pass collecting the (promise-valued) results
of the per-match transform in match order, a concurrent resolution of all
collected promises with `Promise.all`, and a second pass splicing the
resolved values back in match order.

The match list produced by a (deterministic) pattern on a fixed input is
modelled as a list of spans `(start, len)` that is in left-to-right order
and non-overlapping; both `replace` passes see the same list.  The
concurrent resolution is modelled by an explicit completion order: the
event loop finishes the pending transforms in an arbitrary order given by a
list of task indices, each completion storing its value in the slot of its
own index, and `Promise.all` reads the slots out in index order once every
slot is filled. -/

/-- A regex match span inside the subject string. -/
structure Span where
  start : Nat
  len : Nat
deriving DecidableEq, Repr

/-- The text of a span, model of the matched substring. -/
def sliceSpan (s : Str) (m : Span) : Str := (s.drop m.start).take m.len

/-- The span lists produced by a global regex: in order, non-overlapping,
in bounds, starting at or after `pos`. -/
def validSpansFrom (s : Str) (pos : Nat) : List Span → Bool
  | [] => true
  | m :: rest =>
    decide (pos ≤ m.start) && decide (m.start + m.len ≤ s.length) &&
      validSpansFrom s (m.start + m.len) rest

/-- Splice replacement strings over their spans, keeping every character
outside the spans: model of the second `String.prototype.replace` pass once
all replacement values are known. -/
def splice (s : Str) : Nat → List (Span × Str) → Str
  | pos, [] => s.drop pos
  | pos, (m, r) :: rest =>
    ((s.drop pos).take (m.start - pos)) ++ r ++ splice s (m.start + m.len) rest

/-- One completion step of the event loop: task `j` finishes and stores its
value in slot `j`. -/
def completeTask (vals : List Str) (slots : List (Option Str)) (j : Nat) :
    List (Option Str) :=
  slots.set j (some (vals.getD j []))

/-- `Promise.all`: run the pending tasks to completion in the order given
by `order`; once every slot is filled, return the values in task-index
order (not completion order).  `none` models a `Promise.all` that never
settles because some task never completed. -/
def promiseAll (vals : List Str) (order : List Nat) : Option (List Str) :=
  let slots := order.foldl (completeTask vals) (List.replicate vals.length none)
  if slots.all Option.isSome then some (slots.map (fun o => o.getD [])) else none

/-- `replaceAsync` with a function replacer: collect the transforms of all
matches in match order, resolve them concurrently (completion order
`order`), then splice the resolved values back in match order. -/
def replaceAsyncModel (s : Str) (ms : List Span) (tf : Nat → Str → Str)
    (order : List Nat) : Option Str :=
  let values := (List.range ms.length).map
    (fun i => tf i (sliceSpan s (ms.getD i ⟨0, 0⟩)))
  (promiseAll values order).map (fun resolved => splice s 0 (ms.zip resolved))

/-! ## Tag matching (`generateTagRegex`, `kit/preprocessors/utils.js`)

`generateTagRegex(tag)` compiles the pattern `<tag>(.*?)<\/tag>` with the
`ms` flags.  Its leftmost match on a subject: the first position `i`
carrying the literal `<tag>` such that the literal `</tag>` occurs
somewhere after it; the lazy body group then extends to the first such
occurrence of `</tag>`. -/

/-- The literal opening tag `<t>`. -/
def openTagStr (t : Str) : Str := '<' :: (t ++ [ '>' ])

/-- The literal closing tag `</t>`. -/
def closeTagStr (t : Str) : Str := '<' :: '/' :: (t ++ [ '>' ])

/-- Leftmost match of `<t>(.*?)<\/t>` (flags `ms`): returns the match start
index and the captured body. -/
def tagFirstMatch (t : Str) : Str → Option (Nat × Str)
  | [] => none
  | c :: rest =>
    let s := c :: rest
    if (openTagStr t).isPrefixOf s then
      match findIdxFrom (closeTagStr t) (s.drop (openTagStr t).length) with
      | some j => some (0, (s.drop (openTagStr t).length).take j)
      | none => (tagFirstMatch t rest).map (fun p => (p.1 + 1, p.2))
    else
      (tagFirstMatch t rest).map (fun p => (p.1 + 1, p.2))

/-- `body.match(generateTagRegex(t))[1]`: the first capture group, when the
pattern matches. -/
def tagCapture (t : Str) (s : Str) : Option Str := (tagFirstMatch t s).map (·.2)

/-- Full length of a tag match with captured body `b`. -/
def tagMatchLen (t : Str) (b : Str) : Nat :=
  (openTagStr t).length + b.length + (closeTagStr t).length

/-- All matches of the global pattern `<t>(.*?)<\/t>` (flags `msg`):
repeated leftmost matching, resuming after each match.  `fuel` bounds the
number of scans (a value of `s.length + 1` is always sufficient because
every match is non-empty). -/
def tagAllAux (t : Str) (s : Str) : Nat → Nat → List (Nat × Str)
  | _, 0 => []
  | pos, fuel + 1 =>
    match tagFirstMatch t (s.drop pos) with
    | none => []
    | some (i, body) =>
      (pos + i, body) :: tagAllAux t s (pos + i + tagMatchLen t body) fuel

/-- All (start, body) matches of the global tag pattern on `s`. -/
def tagAllMatches (t : Str) (s : Str) : List (Nat × Str) :=
  tagAllAux t s 0 (s.length + 1)

/-! ## DOM model (htmlparser2 / domutils collaborators)

`docstringPreprocess` feeds rendered HTML through `htmlparser2.parseDocument`
and harvests parameter descriptions with `domutils` queries.  The parsed
tree is modelled as a rose tree of element and text nodes (attributes play
no role in the harvesting code).  The parser and serializer themselves are
external collaborators; the query functions (`getElementsByTagName` in
depth-first pre-order, `innerText` as the concatenation of text descendants,
`getInnerHTML` as the serialization of the children) are embedded below. -/

mutual
inductive DomNode where
  | text (data : Str)
  | elem (name : Str) (children : DomList)
deriving DecidableEq
inductive DomList where
  | nil
  | cons (hd : DomNode) (tl : DomList)
deriving DecidableEq
end

/-- The children of a node as a Lean list. -/
def DomList.toList : DomList → List DomNode
  | .nil => []
  | .cons n ns => n :: ns.toList

mutual
/-- `domutils.innerText`: concatenation of all text-node data below the
node, in document order. -/
def innerTextNode : DomNode → Str
  | .text d => d
  | .elem _ cs => innerTextList cs
def innerTextList : DomList → Str
  | .nil => []
  | .cons n ns => innerTextNode n ++ innerTextList ns
end

mutual
/-- `domutils.getElementsByTagName`: all elements with the given name, in
depth-first pre-order, the queried node included. -/
def elemsByTag (t : Str) : DomNode → List DomNode
  | .text _ => []
  | .elem n cs => (if n = t then [DomNode.elem n cs] else []) ++ elemsByTagList t cs
def elemsByTagList (t : Str) : DomList → List DomNode
  | .nil => []
  | .cons n ns => elemsByTag t n ++ elemsByTagList t ns
end

mutual
/-- Serialization of a node (dom-serializer without attributes). -/
def renderDomNode : DomNode → Str
  | .text d => d
  | .elem n cs => openTagStr n ++ renderDomList cs ++ closeTagStr n
def renderDomList : DomList → Str
  | .nil => []
  | .cons n ns => renderDomNode n ++ renderDomList ns
end

/-- `domutils.getInnerHTML`: serialization of the children. -/
def getInnerHTML : DomNode → Str
  | .text _ => []
  | .elem _ cs => renderDomList cs

/-- `childNodes.filter(({type}) => type === "tag")` keeps element nodes. -/
def isTagNode : DomNode → Bool
  | .elem _ _ => true
  | .text _ => false

/-- The child nodes of a node (empty for text nodes). -/
def childNodesOf : DomNode → List DomNode
  | .text _ => []
  | .elem _ cs => cs.toList

/-- JavaScript whitespace, as used by `String.prototype.trim`, `\s` and
`parseInt` (the ASCII part; the source never relies on the exotic
Unicode space classes). -/
def isJsWs (c : Char) : Bool :=
  c = ' ' || c = '\t' || c = '\n' || c = '\r' || c = '\x0c' || c = '\x0b'

/-- `String.prototype.trim`. -/
def trimStr (s : Str) : Str :=
  ((s.dropWhile isJsWs).reverse.dropWhile isJsWs).reverse

/-! ## JSON serialization (`JSON.stringify` on the record shapes emitted) -/

/-- Lower-case hexadecimal digit. -/
def hexDigit (n : Nat) : Char :=
  if n < 10 then Char.ofNat ('0'.toNat + n) else Char.ofNat ('a'.toNat + n - 10)

/-- `JSON.stringify` escaping of a single character inside a string. -/
def jsonEscapeChar (c : Char) : Str :=
  if c = '"' then ['\\', '"']
  else if c = '\\' then ['\\', '\\']
  else if c = '\n' then ['\\', 'n']
  else if c = '\r' then ['\\', 'r']
  else if c = '\t' then ['\\', 't']
  else if c = '\x08' then ['\\', 'b']
  else if c = '\x0c' then ['\\', 'f']
  else if c.toNat < 32 then
    ['\\', 'u', '0', '0', hexDigit (c.toNat / 16), hexDigit (c.toNat % 16)]
  else [c]

/-- `JSON.stringify` of a string value. -/
def jsonStr (s : Str) : Str :=
  '"' :: (s.foldr (fun c acc => jsonEscapeChar c ++ acc) ['"'])

/-- Decimal digits of a natural number (JSON serialization of a number). -/
def natToStr (n : Nat) : Str := (Nat.repr n).data

/-- One harvested parameter description, `{ anchor, description, name }`
(in the key order of the object literal in the source). -/
structure ParamDesc where
  anchor : Str
  description : Str
  name : Str
deriving DecidableEq, Repr

/-- `JSON.stringify` of a `ParamDesc`. -/
def jsonOfParam (p : ParamDesc) : Str :=
  strOf "\x7b\"anchor\":" ++ jsonStr p.anchor ++
    strOf ",\"description\":" ++ jsonStr p.description ++
    strOf ",\"name\":" ++ jsonStr p.name ++ strOf "\x7d"

/-- `JSON.stringify` of an array given the serializations of its elements. -/
def jsonArr (elts : List Str) : Str :=
  '[' :: (List.intercalate (strOf ",") elts ++ [']'])

/-! ## Parameter-description harvesting (`docstringPreprocess`, lines
211–232 and the identical block in the `paramgroups` branch) -/

/-- `'<p>'` / `'</p>'` stripping: a leading `<p>` and a trailing `</p>`
are each removed when present (two independent checks in the source). -/
def stripParagraphTags (d : Str) : Str :=
  let d1 := if (strOf "<p>").isPrefixOf d then d.drop (strOf "<p>").length else d
  if (strOf "</p>").isSuffixOf d1 then d1.take (d1.length - (strOf "</p>").length)
  else d1

/-- Harvest one `<li>`: the first `<strong>` descendant gives the name, the
item's trimmed inner HTML (paragraph tags stripped) the description, and
the parent anchor joined with `"."` and the name the anchor.  `none` models
the `TypeError` thrown by `innerText(undefined)` when the item has no
`<strong>`. -/
def harvestItem (anchor : Str) (childEl : DomNode) : Option ParamDesc :=
  match elemsByTag (strOf "strong") childEl with
  | [] => none
  | nameEl :: _ =>
    let name := innerTextNode nameEl
    some ⟨anchor ++ '.' :: name,
      stripParagraphTags (trimStr (getInnerHTML childEl)), name⟩

/-- Run a fallible function over a list, stopping at the first failure
(the loop throws at the first bad item). -/
def optionMapM {α β : Type} (f : α → Option β) : List α → Option (List β)
  | [] => some []
  | x :: rest =>
    match f x, optionMapM f rest with
    | some y, some ys => some (y :: ys)
    | _, _ => none

/-- Run a fallible function over a list, keeping the first error (the loop
throws at the first bad item; `Promise.all` rejects with the first
rejection). -/
def exceptMapM {α β : Type} (f : α → Except Str β) : List α → Except Str (List β)
  | [] => .ok []
  | x :: rest =>
    match f x, exceptMapM f rest with
    | .error e, _ => .error e
    | .ok _, .error e => .error e
    | .ok y, .ok ys => .ok (y :: ys)

/-- Harvest every element child of a `<ul>` list node. -/
def harvestList (anchor : Str) (list : DomNode) : Option (List ParamDesc) :=
  optionMapM (harvestItem anchor) ((childNodesOf list).filter isTagNode)

/-! ## Guarded tag patterns (the `paramgroups` branch of
`docstringPreprocess`)

`REGEX_GROUP_TITLE` / `REGEX_GROUP_CONTENT` have the shape
`<T>(((?!<T>).)*)</T>` (flags `ms`): a literal opening tag, a greedy body
in which no position may start another `<T>`, and a literal closing tag
found by backtracking from the end of the guard-free run. -/

/-- First index of `s` at which `pat` starts, or `s.length` when it never
does: the length of the longest prefix every position of which passes the
negative lookahead `(?!pat)`. -/
def guardFreeRun (pat : Str) (s : Str) : Nat :=
  (findIdxFrom pat s).getD s.length

/-- Largest `e ≤ bound` at which `cls` starts in `s` (greedy backtracking
for the closing literal). -/
def lastCloseAt (cls : Str) (s : Str) (bound : Nat) : Option Nat :=
  ((List.range (bound + 1)).filter (fun e => cls.isPrefixOf (s.drop e))).getLast?

/-- Leftmost match of `<T>(((?!<T>).)*)</T>`: the first capture group, when
the pattern matches anywhere in the subject. -/
def lookaheadTagCapture (T : Str) : Str → Option Str
  | [] => none
  | c :: rest =>
    let s := c :: rest
    if (openTagStr T).isPrefixOf s then
      let s' := s.drop (openTagStr T).length
      match lastCloseAt (closeTagStr T) s' (guardFreeRun (openTagStr T) s') with
      | some e => some (s'.take e)
      | none => lookaheadTagCapture T rest
    else lookaheadTagCapture T rest

/-- `parseInt` with no radix argument on a decimal subject: leading
whitespace skipped, optional sign, then the longest digit prefix; `none`
models `NaN`.  (The hexadecimal `0x` form never arises for the repeat
counts this is applied to.) -/
def digitsPrefixVal (s : Str) : Option Nat :=
  let ds := s.takeWhile Char.isDigit
  if ds = [] then none
  else some (ds.foldl (fun acc c => acc * 10 + (c.toNat - '0'.toNat)) 0)

def parseIntJs (s : Str) : Option Int :=
  match s.dropWhile isJsWs with
  | '-' :: rest => (digitsPrefixVal rest).map (fun n => -(n : Int))
  | '+' :: rest => (digitsPrefixVal rest).map (fun n => (n : Int))
  | t => (digitsPrefixVal t).map (fun n => (n : Int))

/-! ## The docstring transformer (`docstringPreprocess`,
`kit/preprocessors/tokenizersLang.js`)

External collaborators are passed as parameters:
* `render : Str → Str` — `mdsvexPreprocess.markup` on a sub-field
  (markdown to HTML);
* `admonitions : Str → Str` — the string rewriting of rendered `<Tip>` /
  `<Added|Changed|Deprecated>` components into styled `<div>` containers
  (lines 185–209 of the source; a string-to-string rewrite whose output
  only feeds the HTML parser);
* `parse : Str → DomNode` — `htmlparser2.parseDocument`.

A `.error` result models an exception thrown inside the replacer (a
`TypeError` from indexing a failed `match`), which rejects the promise
collected by `replaceAsync` and aborts the whole-document transform. -/

/-- `unescapeUnderscores`: drop the escaping backslash of `\_`. -/
def unescapeUnderscores (content : Str) : Str :=
  replaceSub (strOf "\\_") (strOf "_") content

/-- The mandatory head of the emitted component:
`<Docstring name={…} anchor={…} parameters={…} `. -/
def docstringHead (name anchor signature : Str) : Str :=
  strOf "<Docstring name=\x7b" ++ jsonStr (unescapeUnderscores name) ++
    strOf "\x7d anchor=\x7b" ++ jsonStr anchor ++
    strOf "\x7d parameters=\x7b" ++ signature ++ strOf "\x7d "

/-- The ` parametersDescription={…} ` attribute. -/
def paramsDescAttr (result : List ParamDesc) : Str :=
  strOf " parametersDescription=\x7b" ++ jsonArr (result.map jsonOfParam) ++
    strOf "\x7d "

/-- The parsed DOM of a parameter-description block: `}}` neutralized with
a zero-width non-joiner, markdown-rendered, admonitions rewritten, parsed. -/
def paramsDescDom (render admonitions : Str → Str) (parse : Str → DomNode)
    (content : Str) : DomNode :=
  parse (admonitions (render
    (replaceSub (strOf "\x7d\x7d") (strOf "\x7d&zwnj;\x7d") content)))

/-- The `paramsdesc` branch: no block, or a block whose rendered HTML has
no `<ul>`, contributes nothing; otherwise the first `<ul>` is harvested
(`.error` when a list item has no `<strong>`). -/
def paramsDescPart (render admonitions : Str → Str) (parse : Str → DomNode)
    (anchor docstringBody : Str) : Except Str Str :=
  match tagCapture (strOf "paramsdesc") docstringBody with
  | none => .ok []
  | some content =>
    match elemsByTag (strOf "ul") (paramsDescDom render admonitions parse content) with
    | [] => .ok []
    | list :: _ =>
      match harvestList anchor list with
      | none => .error (strOf "TypeError: cannot read innerText of undefined")
      | some result => .ok (paramsDescAttr result)

/-- An optional sub-field rendered through mdsvex and serialized as a
JSON-escaped attribute ` attr={…} `. -/
def renderedAttr (render : Str → Str) (tag attr : Str) (docstringBody : Str)
    (extra : Str) : Str :=
  match tagCapture tag docstringBody with
  | none => []
  | some v =>
    ' ' :: (attr ++ strOf "=\x7b" ++ jsonStr (render v) ++ strOf "\x7d" ++ extra ++ [' '])

/-- The ` source={…} ` attribute (serialized without rendering). -/
def sourceAttr (docstringBody : Str) : Str :=
  match tagCapture (strOf "source") docstringBody with
  | none => []
  | some source => strOf " source=\x7b" ++ jsonStr source ++ strOf "\x7d "

/-- The ` isGetSetDescriptor={true} ` flag
(`REGEX_IS_GETSET_DESC = /<isgetsetdescriptor>/ms`). -/
def getSetAttr (docstringBody : Str) : Str :=
  if containsSub (strOf "<isgetsetdescriptor>") docstringBody then
    strOf " isGetSetDescriptor=\x7btrue\x7d "
  else []

/-- `JSON.stringify` of one parameter group `{ title, parametersDescription }`. -/
def jsonOfGroup (title : Str) (ps : List ParamDesc) : Str :=
  strOf "\x7b\"title\":" ++ jsonStr title ++
    strOf ",\"parametersDescription\":" ++ jsonArr (ps.map jsonOfParam) ++
    strOf "\x7d"

/-- One numbered parameter group: mandatory `<paramsdescNtitle>` and
`<paramsdescN>` blocks (a failed `match` throws), rendered, parsed and
harvested like the main parameter list (but an absent `<ul>` yields an
empty array). -/
def paramGroup (render : Str → Str) (parse : Str → DomNode)
    (anchor docstringBody : Str) (groupId : Nat) : Except Str Str :=
  let titleTag := strOf "paramsdesc" ++ natToStr groupId ++ strOf "title"
  let contentTag := strOf "paramsdesc" ++ natToStr groupId
  match lookaheadTagCapture titleTag docstringBody with
  | none => .error (strOf "TypeError: cannot read 1 of null")
  | some title =>
    match lookaheadTagCapture contentTag docstringBody with
    | none => .error (strOf "TypeError: cannot read 1 of null")
    | some content =>
      let dom := parse (render content)
      match elemsByTag (strOf "ul") dom with
      | [] => .ok (jsonOfGroup title [])
      | list :: _ =>
        match harvestList anchor list with
        | none => .error (strOf "TypeError: cannot read innerText of undefined")
        | some result => .ok (jsonOfGroup title result)

/-- The `paramgroups` branch: a repeat count parsed with `parseInt`, then
that many numbered groups, serialized as ` parameterGroups={[…]} `. -/
def paramGroupsPart (render : Str → Str) (parse : Str → DomNode)
    (anchor docstringBody : Str) : Except Str Str :=
  match tagCapture (strOf "paramgroups") docstringBody with
  | none => .ok []
  | some ngStr =>
    match parseIntJs ngStr with
    | none => .ok []
    | some n =>
      if n > 0 then
        match exceptMapM (paramGroup render parse anchor docstringBody)
            ((List.range n.toNat).map (· + 1)) with
        | .error e => .error e
        | .ok groups =>
          .ok (strOf " parameterGroups=\x7b" ++ jsonArr groups ++ strOf "\x7d ")
      else .ok []

/-- The replacer of `docstringPreprocess` applied to one captured
`<docstring>` body. -/
def docstringReplacer (render admonitions : Str → Str) (parse : Str → DomNode)
    (docstringBody0 : Str) : Except Str Str := do
  let docstringBody := renderSvelteChars docstringBody0
  match tagCapture (strOf "name") docstringBody,
      tagCapture (strOf "anchor") docstringBody,
      tagCapture (strOf "parameters") docstringBody with
  | some name, some anchor, some signature => do
    let pd ← paramsDescPart render admonitions parse anchor docstringBody
    let pg ← paramGroupsPart render parse anchor docstringBody
    pure (docstringHead name anchor signature ++ pd ++
      sourceAttr docstringBody ++
      renderedAttr render (strOf "retdesc") (strOf "returnDescription") docstringBody [] ++
      renderedAttr render (strOf "rettype") (strOf "returnType") docstringBody [] ++
      renderedAttr render (strOf "yieldesc") (strOf "returnDescription") docstringBody [] ++
      renderedAttr render (strOf "yieldtype") (strOf "returnType") docstringBody
        (strOf " isYield=\x7btrue\x7d") ++
      renderedAttr render (strOf "raises") (strOf "raiseDescription") docstringBody [] ++
      renderedAttr render (strOf "raisederrors") (strOf "raiseType") docstringBody [] ++
      getSetAttr docstringBody ++ pg ++ strOf " />\n")
  | _, _, _ => .error (strOf "TypeError: cannot read 1 of null")

/-- The whole-document `docstringPreprocess.markup`: every `<docstring>`
match is replaced through `replaceAsync`; a replacer exception rejects the
collected promise, so the transform yields an error and no output text. -/
def docstringMarkup (render admonitions : Str → Str) (parse : Str → DomNode)
    (content : Str) : Except Str Str :=
  let ms := tagAllMatches (strOf "docstring") content
  match exceptMapM (fun m => docstringReplacer render admonitions parse m.2) ms with
  | .error e => .error e
  | .ok repls =>
    .ok (splice content 0
      ((ms.map (fun m => Span.mk m.1 (tagMatchLen (strOf "docstring") m.2))).zip repls))

/-! ## Framework / variant content transformers
(`kit/preprocessors/frameworkcontent.js`, `tokenizersLang.js`, and
`inferenceSnippetPreprocess`)

All three share the loop body: for each entry of a `FRAMEWORKS` array
(declared order), test the container body against the variant tag pattern,
mark `isExist`, accumulate a `<svelte:fragment>` slot, and finally emit one
`framework={bool}` prop per entry.  They differ in where the `FRAMEWORKS`
array lives: `frameworkcontent.js` creates it inside the replacer (fresh
per block); `tokenizersLangPreprocess` and `inferenceSnippetPreprocess`
create it once per `markup` call, outside the replacer, so the `isExist`
mutations persist from one block to the next within a document. -/

/-- One entry of a `FRAMEWORKS` array: display name and variant tag. -/
structure FwDef where
  framework : Str
  tag : Str
deriving DecidableEq, Repr

/-- The `<svelte:fragment>`/`<Markdown>` slot template (byte-exact,
including the tab indentation of the template literal). -/
def fwFragment (framework content : Str) : Str :=
  strOf "<svelte:fragment slot=\"" ++ framework ++
    strOf "\">\n\t\t\t\t\t<Markdown>\n\t\t\t\t\t\n\n" ++ content ++
    strOf "\n\n\n\t\t\t\t\t</Markdown>\n\t\t\t\t\t</svelte:fragment>"

/-- JavaScript `${bool}` interpolation. -/
def boolStr : Bool → Str
  | true => strOf "true"
  | false => strOf "false"

/-- The framework loop over a block body, threading the mutable `isExist`
flags: a present variant sets its flag and appends its slot; an absent
variant leaves its flag as it was. -/
def variantLoop (body : Str) : List (FwDef × Bool) → List (FwDef × Bool) × Str
  | [] => ([], [])
  | (fw, flag) :: rest =>
    let (flags, slots) := variantLoop body rest
    match tagCapture fw.tag body with
    | some content => ((fw, true) :: flags, fwFragment fw.framework content ++ slots)
    | none => ((fw, flag) :: flags, slots)

/-- `FRAMEWORKS.map(fw => `${fw.framework}={${fw.isExist}}`).join(" ")`. -/
def variantProps (flags : List (FwDef × Bool)) : Str :=
  List.intercalate (strOf " ")
    (flags.map fun p => p.1.framework ++ strOf "=\x7b" ++ boolStr p.2 ++ strOf "\x7d")

/-- The `FRAMEWORKS` array of `frameworkcontentPreprocess` (created inside
the replacer with every flag false). -/
def frameworkcontentFRAMEWORKS : List (FwDef × Bool) :=
  [(⟨strOf "pytorch", strOf "pt"⟩, false),
   (⟨strOf "tensorflow", strOf "tf"⟩, false),
   (⟨strOf "jax", strOf "jax"⟩, false)]

/-- The replacer of `frameworkcontentPreprocess` on one captured
`<frameworkcontent>` body. -/
def frameworkcontentReplacer (body : Str) : Str :=
  let (flags, slots) := variantLoop body frameworkcontentFRAMEWORKS
  strOf "\n\n<FrameworkContent " ++ variantProps flags ++ strOf ">\n" ++
    slots ++ strOf "\n</FrameworkContent>\n\n"

/-- One block of `tokenizersLangPreprocess` / `inferenceSnippetPreprocess`:
the loop mutates the shared flags, and the props are read from the mutated
flags. -/
def variantBlock (comp : Str) (st : List (FwDef × Bool)) (body : Str) :
    List (FwDef × Bool) × Str :=
  let (st', slots) := variantLoop body st
  (st', '<' :: (comp ++ ' ' :: (variantProps st' ++ strOf ">\n" ++ slots ++
    strOf "\n</" ++ comp ++ strOf ">")))

/-- The replacements of all blocks of a document, threading the
`FRAMEWORKS` flags from block to block (the array lives outside the
replacer). -/
def variantRepls (comp : Str) (st : List (FwDef × Bool)) :
    List (Nat × Str) → List Str
  | [] => []
  | m :: rest =>
    let (st', out) := variantBlock comp st m.2
    out :: variantRepls comp st' rest

/-- A whole-document `markup` call of the shared-state variant transformer:
fresh all-false flags per call, then every container match replaced with
the state threaded across blocks. -/
def variantMarkup (comp tagName : Str) (fws : List FwDef) (content : Str) : Str :=
  let ms := tagAllMatches tagName content
  let repls := variantRepls comp (fws.map (fun fw => (fw, false))) ms
  splice content 0
    ((ms.map (fun m => Span.mk m.1 (tagMatchLen tagName m.2))).zip repls)

/-- `tokenizersLangPreprocess.markup`. -/
def tokenizersLangMarkup (content : Str) : Str :=
  variantMarkup (strOf "TokenizersLanguageContent") (strOf "tokenizerslangcontent")
    [⟨strOf "python", strOf "python"⟩, ⟨strOf "rust", strOf "rust"⟩,
     ⟨strOf "node", strOf "node"⟩] content

/-- `inferenceSnippetPreprocess.markup`. -/
def inferenceSnippetMarkup (content : Str) : Str :=
  variantMarkup (strOf "InferenceApi") (strOf "inferencesnippet")
    [⟨strOf "python", strOf "python"⟩, ⟨strOf "js", strOf "js"⟩,
     ⟨strOf "curl", strOf "curl"⟩] content

/-! ## Body-region escaping (`kit/preprocessors/mdsvex/index.js`)

`hfDocBodyStart` / `hfDocBodyEnd` are module-level `let` bindings: they are
mutated by `isWithinDocBody` while the remark tree visitor walks text
nodes, and they are never re-initialized between `markup` calls.  A
document's text nodes are modelled as the list of their values in visit
order; processing a sequence of documents threads the flag pair through
without reset. -/

/-- The module-level flag pair. -/
structure BodyFlags where
  started : Bool
  ended : Bool
deriving DecidableEq, Repr

/-- The two accepted spellings of the start sentinel. -/
def isStartMarker (v : Str) : Bool :=
  v = strOf "<!--HF DOCBUILD BODY START-->" || v = strOf "HF_DOC_BODY_START"

/-- The two accepted spellings of the end sentinel. -/
def isEndMarker (v : Str) : Bool :=
  v = strOf "<!--HF DOCBUILD BODY END-->" || v = strOf "HF_DOC_BODY_END"

/-- The flag updates performed by `isWithinDocBody` on one node value. -/
def stepFlags (fl : BodyFlags) (v : Str) : BodyFlags :=
  let fl1 := if isStartMarker v then ⟨true, false⟩ else fl
  if isEndMarker v then ⟨fl1.started, true⟩ else fl1

/-- The bare-token sentinels are deleted from the node value. -/
def deleteBareMarker (v : Str) : Str :=
  let v1 := if v = strOf "HF_DOC_BODY_START" then [] else v
  if v1 = strOf "HF_DOC_BODY_END" then [] else v1

/-- The escaping applied to text nodes inside the body region:
`{ → &#123;` then `< → &#60;`. -/
def escapeBody (v : Str) : Str :=
  replaceSub (strOf "<") (strOf "&#60;")
    (replaceSub (strOf "\x7b") (strOf "&#123;") v)

/-- `onText` on one node: update the flags, delete a bare sentinel, and
escape the value exactly when the region is active (`started && !ended`
after the update). -/
def onTextNode (fl : BodyFlags) (v : Str) : BodyFlags × Str :=
  let fl' := stepFlags fl v
  let v' := deleteBareMarker v
  (fl', if fl'.started && !fl'.ended then escapeBody v' else v')

/-- Process the text nodes of one document in visit order. -/
def processStream (fl : BodyFlags) : List Str → BodyFlags × List Str
  | [] => (fl, [])
  | v :: rest =>
    let (fl1, v') := onTextNode fl v
    let (fl2, out) := processStream fl1 rest
    (fl2, v' :: out)

/-- Process a sequence of documents: the module-level flags carry over from
one document to the next (no per-document reset appears in the source). -/
def processDocs (fl : BodyFlags) : List (List Str) → BodyFlags × List (List Str)
  | [] => (fl, [])
  | d :: ds =>
    let (fl1, out) := processStream fl d
    let (fl2, outs) := processDocs fl1 ds
    (fl2, out :: outs)

/-- The flags at module load. -/
def initialBodyFlags : BodyFlags := ⟨false, false⟩

/-- Declarative characterization of the active region: scanning backwards
from a node (inclusive), a start sentinel occurs before any end sentinel. -/
def activeRev : List Str → Bool
  | [] => false
  | v :: older =>
    if isEndMarker v then false
    else if isStartMarker v then true
    else activeRev older

/-- The expected output of the visitor on a stream of text-node values,
node by node: a node is escaped exactly when the region is active at it. -/
def specOutputs (stream : List Str) : List Str :=
  (List.range stream.length).map fun j =>
    let v' := deleteBareMarker (stream.getD j [])
    if activeRev ((stream.take (j + 1)).reverse) then escapeBody v' else v'

/-! ## The dual-variant code highlighter
(`highlight.highlighter` in `kit/preprocessors/mdsvex/index.js`)

`hljs` and `btoa(encodeURIComponent(·))` are external collaborators, passed
as the parameters `hl` and `b64`.  The module-level `wrapCodeBlocks` flag
is assigned at the start of each `mdsvexPreprocess.markup` call from the
document-level `<!-- WRAP CODE BLOCKS -->` marker. -/

/-- `REGEX_CODE_INPUT = /^(>>>\s|\.\.\.\s)/`: a REPL prompt at the start of
a line. -/
def promptMatch : Str → Bool
  | '>' :: '>' :: '>' :: c :: _ => isJsWs c
  | '.' :: '.' :: '.' :: c :: _ => isJsWs c
  | _ => false

/-- The suffixes of `s` that follow a newline (the `m`-flag line starts
other than the start of the string). -/
def afterNewlines : Str → List Str
  | [] => []
  | c :: rest =>
    if c = '\n' then rest :: afterNewlines rest else afterNewlines rest

/-- `code.match(REGEX_CODE_INPUT)` with the `m` flag: some line of the
whole text starts with a prompt. -/
def promptGate (s : Str) : Bool :=
  promptMatch s || (afterNewlines s).any promptMatch

/-- `String.prototype.split("\n")`. -/
def splitNl : Str → List Str
  | [] => [[]]
  | c :: rest =>
    match splitNl rest with
    | [] => [[c]]
    | l :: ls => if c = '\n' then [] :: l :: ls else (c :: l) :: ls

/-- `Array.prototype.join("\n")`. -/
def joinNl (ls : List Str) : Str := List.intercalate (strOf "\n") ls

/-- The interactive-transcript filter: when some line carries a prompt,
keep only prompt lines and empty lines and strip the four-character prompt
from the kept lines. -/
def filterPromptLines (seg : Str) : Str :=
  if promptGate seg then
    joinNl (((splitNl seg).filter (fun l => promptMatch l || l.isEmpty)).map
      (fun l => if promptMatch l then l.drop 4 else l))
  else seg

/-- The two delimiter cores of
`REGEX_FRAMEWORKS_SPLIT = /\s*===(PT-TF|STRINGAPI-READINSTRUCTION)-SPLIT===\s*/gm`. -/
def coreDelimPtTf : Str := strOf "===PT-TF-SPLIT==="

def coreDelimStringapi : Str := strOf "===STRINGAPI-READINSTRUCTION-SPLIT==="

/-- Index of the leftmost delimiter core occurrence and which alternative
it is (`true` = `PT-TF`). -/
def findFirstDelim (s : Str) : Option (Nat × Bool) :=
  match findIdxFrom coreDelimPtTf s, findIdxFrom coreDelimStringapi s with
  | none, none => none
  | some i, none => some (i, true)
  | none, some j => some (j, false)
  | some i, some j => if i ≤ j then some (i, true) else some (j, false)

/-- The number of whitespace characters directly before position `i` of `s`
(the greedy leading `\s*` of the delimiter pattern). -/
def wsRunBefore (s : Str) (i : Nat) : Nat :=
  ((s.take i).reverse.takeWhile isJsWs).length

/-- Cut the subject at the first delimiter match: the text before the match
(leading `\s*` consumed greedily), the alternative, and the text after
(trailing `\s*` consumed greedily); `none` when no delimiter occurs. -/
def delimCut (s : Str) : Option (Bool × Str × Str) :=
  match findFirstDelim s with
  | none => none
  | some (i, pt) =>
    let core := if pt then coreDelimPtTf else coreDelimStringapi
    some (pt, s.take (i - wsRunBefore s i), (s.drop (i + core.length)).dropWhile isJsWs)

/-- The first two fields destructured from
`code.split(REGEX_FRAMEWORKS_SPLIT)`: the segment before the first
delimiter and the segment between the first delimiter and the following one
(or the end).  Also reports which alternative the first delimiter is
(`code.match(...)[0].includes("PT-TF")`). -/
def codeGroups (s : Str) : Option (Bool × Str × Str) :=
  match delimCut s with
  | none => none
  | some (pt, g1, rest) =>
    let g2 := match delimCut rest with
      | none => rest
      | some (_, before2, _) => before2
    some (pt, g1, g2)

/-- The template-literal escaping applied to highlighted payloads:
`\ → \\`, then `` ` → \` ``, `} → \}`, `$ → \$`. -/
def escapeTpl (code : Str) : Str :=
  replaceSub (strOf "$") (strOf "\\$")
    (replaceSub (strOf "\x7d") (strOf "\\\x7d")
      (replaceSub (strOf "`") (strOf "\\`")
        (replaceSub (strOf "\\") (strOf "\\\\") code)))

/-- The dual-column `CodeBlockFw` component template (byte-exact). -/
def codeBlockFw (id1 code1 hl1 id2 code2 hl2 : Str) (wrap : Bool) : Str :=
  strOf "\n\t<CodeBlockFw\n\t\tgroup1=\x7b\x7b\n\t\t\tid: '" ++ id1 ++
    strOf "',\n\t\t\tcode: `" ++ code1 ++
    strOf "`,\n\t\t\thighlighted: `" ++ hl1 ++
    strOf "`\n\t\t\x7d\x7d\n\t\tgroup2=\x7b\x7b\n\t\t\tid: '" ++ id2 ++
    strOf "',\n\t\t\tcode: `" ++ code2 ++
    strOf "`,\n\t\t\thighlighted: `" ++ hl2 ++
    strOf "`\n\t\t\x7d\x7d\n\t\twrap=\x7b" ++ boolStr wrap ++ strOf "\x7d\n\t/>"

/-- The single-column `CodeBlock` component template (byte-exact, including
the trailing space after the component name). -/
def codeBlockSingle (code hl : Str) (wrap : Bool) : Str :=
  strOf "\n\t<CodeBlock \n\t\tcode=\x7b`" ++ code ++
    strOf "`\x7d\n\t\thighlighted=\x7b`" ++ hl ++
    strOf "`\x7d\n\t\twrap=\x7b" ++ boolStr wrap ++ strOf "\x7d\n\t/>"

/-- The fenced-code highlighter: decode escapes; if a split delimiter is
present, cut into two segments, highlight each segment, filter each
segment's REPL transcript, and emit the dual-column component from the
base64 of the filtered segments and the escaped highlighted segments;
otherwise emit the single-column component the same way. -/
def highlighter (hl b64 : Str → Str) (wrap : Bool) (code0 : Str) : Str :=
  let code := renderSvelteChars code0
  match codeGroups code with
  | some (pt, g1, g2) =>
    codeBlockFw
      (if pt then strOf "pt" else strOf "stringapi")
      (b64 (filterPromptLines g1)) (escapeTpl (hl g1))
      (if pt then strOf "tf" else strOf "readinstruction")
      (b64 (filterPromptLines g2)) (escapeTpl (hl g2)) wrap
  | none =>
    codeBlockSingle (b64 (filterPromptLines code)) (escapeTpl (hl code)) wrap

/-- `wrapCodeBlocks = content.includes(WRAP_CODE_BLOCKS_FLAG)`: the
document-level wrap marker. -/
def wrapOf (content : Str) : Bool :=
  containsSub (strOf "<!-- WRAP CODE BLOCKS -->") content

/-! ## Heading outline (`addToTree` / `treeVisitor`,
`kit/preprocessors/mdsvex/index.js`)

A heading node `{title, local, sections, depth}`; the outline is a forest
built by `addToTree`, which pushes at top level when the last root is at
the same or deeper level and otherwise descends into the last root's
sections.  The visitor serializes `headings[0]` with `JSON.stringify`
(escaping single quotes) into a `<script context="module">` metadata node;
with no headings, `JSON.stringify(undefined)` is `undefined` and the
template interpolation produces the literal text `undefined`. -/

mutual
inductive HeadingNode where
  | mk (title localSlug : Str) (sections : HeadingForest) (depth : Nat)
deriving DecidableEq
inductive HeadingForest where
  | nil
  | cons (hd : HeadingNode) (tl : HeadingForest)
deriving DecidableEq
end

/-- The `depth` field. -/
def HeadingNode.depth : HeadingNode → Nat
  | .mk _ _ _ d => d

/-- `addToTree(tree, node)`: push after a last root of equal-or-greater
depth, otherwise recurse into the last root's sections. -/
def addToTree : HeadingForest → HeadingNode → HeadingForest
  | .nil, node => .cons node .nil
  | .cons h .nil, node =>
    if h.depth ≥ node.depth then .cons h (.cons node .nil)
    else
      match h with
      | .mk t l secs d => .cons (.mk t l (addToTree secs node) d) .nil
  | .cons h (.cons h2 t), node => .cons h (addToTree (.cons h2 t) node)

/-- The outline of a document's headings (title, slug, depth) in document
order: `headings = addToTree(headings, {title, local, sections: [], depth})`
folded over the visit. -/
def buildOutline (hs : List (Str × Str × Nat)) : HeadingForest :=
  hs.foldl (fun tree h => addToTree tree (.mk h.1 h.2.1 .nil h.2.2)) .nil

mutual
/-- `JSON.stringify` of a heading node (key order of the object literal:
`title`, `local`, `sections`, `depth`). -/
def jsonOfHeading : HeadingNode → Str
  | .mk t l secs d =>
    strOf "\x7b\"title\":" ++ jsonStr t ++ strOf ",\"local\":" ++ jsonStr l ++
      strOf ",\"sections\":[" ++ jsonOfHeadingForest secs ++ strOf "],\"depth\":" ++
      natToStr d ++ strOf "\x7d"
def jsonOfHeadingForest : HeadingForest → Str
  | .nil => []
  | .cons h .nil => jsonOfHeading h
  | .cons h (.cons h2 t) => jsonOfHeading h ++ ',' :: jsonOfHeadingForest (.cons h2 t)
end

/-- `JSON.stringify(headings[0])` followed by the single-quote escaping:
the metadata value interpolated into the script node.  An empty outline
serializes to the literal text `undefined`. -/
def metadataValue (forest : HeadingForest) : Str :=
  match forest with
  | .nil => strOf "undefined"
  | .cons h _ => replaceSub (strOf "\x27") (strOf "\\\x27") (jsonOfHeading h)

/-- The metadata node prepended to the tree. -/
def metadataScriptNode (forest : HeadingForest) : Str :=
  strOf "<script context=\"module\">export const metadata = \x27" ++
    metadataValue forest ++ strOf "\x27;</script>"

/-! ## Concrete rendered input for the spec's docstring example

The spec's example parameter list `- **x** (`int`) -- desc` is rendered by
the external markdown renderer to an unordered list whose single item wraps
its content in a paragraph (the enclosing `<p>` tags the spec itself notes
as stripped), with the bold term as `<strong>` and the backtick span as
`<code>`. -/

/-- The `<ul>` element of the rendered example parameter list. -/
def exampleUl : DomNode :=
  .elem (strOf "ul") (.cons
    (.elem (strOf "li") (.cons
      (.elem (strOf "p") (.cons
        (.elem (strOf "strong") (.cons (.text (strOf "x")) .nil)) (.cons
        (.text (strOf " (")) (.cons
        (.elem (strOf "code") (.cons (.text (strOf "int")) .nil)) (.cons
        (.text (strOf ") -- desc")) .nil))))) .nil)) .nil)


/-- Decidable equality of transform results. -/
instance : DecidableEq (Except Str Str) := fun a b =>
  match a, b with
  | .error x, .error y =>
    if h : x = y then isTrue (by rw [h]) else
      isFalse (by intro hh; cases hh; exact h rfl)
  | .ok x, .ok y =>
    if h : x = y then isTrue (by rw [h]) else
      isFalse (by intro hh; cases hh; exact h rfl)
  | .error _, .ok _ => isFalse (by intro hh; cases hh)
  | .ok _, .error _ => isFalse (by intro hh; cases hh)

/-! # Theorems -/

/-! ## Helper lemmas -/

theorem completeTask_foldl_getElem (vals : List Str) (order : List Nat) :
    ∀ (slots : List (Option Str)), slots.length = vals.length →
      ∀ i : Nat, (order.foldl (completeTask vals) slots)[i]? =
        if i ∈ order ∧ i < vals.length then some (some (vals.getD i []))
        else slots[i]? := by
  induction order with
  | nil => intro slots _ i; simp
  | cons j rest ih =>
    intro slots hlen i
    have hlen' : (completeTask vals slots j).length = vals.length := by
      simp [completeTask, hlen]
    rw [List.foldl_cons, ih _ hlen' i]
    rcases Decidable.em (i ∈ rest ∧ i < vals.length) with h | h
    · rw [if_pos h, if_pos ⟨List.mem_cons_of_mem _ h.1, h.2⟩]
    · rw [if_neg h]
      rcases Decidable.em (i = j) with hij | hij
      · subst hij
        rcases Decidable.em (i < vals.length) with hi | hi
        · have hstep : (completeTask vals slots i)[i]? = some (some (vals.getD i [])) := by
            unfold completeTask
            rw [List.getElem?_set_self (by omega)]
          rw [hstep, if_pos ⟨List.mem_cons_self i rest, hi⟩]
        · have hstep : (completeTask vals slots i)[i]? = slots[i]? := by
            unfold completeTask
            rw [List.set_eq_of_length_le (by omega)]
          rw [hstep, if_neg (by intro hc; exact hi hc.2)]
      · have hstep : (completeTask vals slots j)[i]? = slots[i]? := by
          unfold completeTask
          exact List.getElem?_set_ne (Ne.symm hij)
        rw [hstep]
        have hnot : ¬ (i ∈ j :: rest ∧ i < vals.length) := by
          intro hc
          rcases List.mem_cons.mp hc.1 with h1 | h1
          · exact hij h1
          · exact h ⟨h1, hc.2⟩
        rw [if_neg hnot]

theorem promiseAll_perm (vals : List Str) (order : List Nat)
    (hperm : order.Perm (List.range vals.length)) :
    promiseAll vals order = some vals := by
  have hslots : order.foldl (completeTask vals) (List.replicate vals.length none)
      = vals.map some := by
    apply List.ext_getElem?
    intro i
    rw [completeTask_foldl_getElem vals order _ (by simp) i]
    rcases Decidable.em (i < vals.length) with hi | hi
    · have hmem : i ∈ order := hperm.mem_iff.mpr (List.mem_range.mpr hi)
      rw [if_pos ⟨hmem, hi⟩]
      simp [List.getElem?_eq_getElem, hi, List.getD]
    · rw [if_neg (by intro hc; exact hi hc.2)]
      rw [List.getElem?_eq_none (by simpa using (by omega : vals.length ≤ i))]
      rw [List.getElem?_eq_none (by simpa using (by omega : vals.length ≤ i))]
  unfold promiseAll
  simp only [hslots]
  rw [if_pos (by simp)]
  congr 1
  rw [List.map_map]
  exact List.map_congr_left (fun a _ => rfl) |>.trans (List.map_id _)

theorem splice_slices (s : Str) :
    ∀ (ms : List Span) (pos : Nat), validSpansFrom s pos ms = true →
      splice s pos (ms.zip (ms.map (sliceSpan s))) = s.drop pos := by
  intro ms
  induction ms with
  | nil => intro pos _; rfl
  | cons m rest ih =>
    intro pos hv
    simp only [validSpansFrom, Bool.and_eq_true, decide_eq_true_eq] at hv
    obtain ⟨⟨h1, h2⟩, h3⟩ := hv
    simp only [List.zip, List.map_cons, List.zipWith_cons_cons, splice]
    simp only [List.zip] at ih
    rw [ih _ h3]
    have e1 : (s.drop pos).drop (m.start - pos) = s.drop m.start := by
      rw [List.drop_drop]
      congr 1
      omega
    have e2 : (s.drop m.start).drop m.len = s.drop (m.start + m.len) := by
      rw [List.drop_drop]
    calc ((s.drop pos).take (m.start - pos)) ++ sliceSpan s m ++ s.drop (m.start + m.len)
        = ((s.drop pos).take (m.start - pos)) ++
            ((s.drop m.start).take m.len ++ (s.drop m.start).drop m.len) := by
          rw [← e2, List.append_assoc]; rfl
      _ = ((s.drop pos).take (m.start - pos)) ++ s.drop m.start := by
          rw [List.take_append_drop]
      _ = ((s.drop pos).take (m.start - pos)) ++ (s.drop pos).drop (m.start - pos) := by
          rw [e1]
      _ = s.drop pos := List.take_append_drop ..

/-! ## C1 -/

/-- C1: for every input text, valid match-span list, per-match transform
and asynchronous completion order (any permutation of the tasks),
`replaceAsync` yields the text in which each matched span is replaced by
its transform's value, spliced in original left-to-right source order — the
result does not mention the completion order — and splicing the original
span texts back reconstructs the input exactly, so every character outside
the matched spans is preserved verbatim. -/
theorem c1_replaceAsync_source_order_and_preservation
    (s : Str) (ms : List Span) (tf : Nat → Str → Str) (order : List Nat)
    (hvalid : validSpansFrom s 0 ms = true)
    (hperm : order.Perm (List.range ms.length)) :
    replaceAsyncModel s ms tf order =
      some (splice s 0 (ms.zip ((List.range ms.length).map
        (fun i => tf i (sliceSpan s (ms.getD i ⟨0, 0⟩)))))) ∧
    splice s 0 (ms.zip (ms.map (sliceSpan s))) = s := by
  constructor
  · simp only [replaceAsyncModel]
    rw [promiseAll_perm _ _ (by simpa using hperm)]
    rfl
  · simpa using splice_slices s ms 0 hvalid

/-- Witness for C1 at a concrete document with two spans whose transforms
complete out of order. -/
theorem c1_replaceAsync_source_order_and_preservation_witness :
    (validSpansFrom (strOf "a<x>1</x>b<x>2</x>c") 0 [⟨1, 8⟩, ⟨10, 8⟩] = true) ∧
    ([1, 0].Perm (List.range 2)) ∧
    replaceAsyncModel (strOf "a<x>1</x>b<x>2</x>c") [⟨1, 8⟩, ⟨10, 8⟩]
      (fun i _ => if i = 0 then strOf "ONE" else strOf "TWO") [1, 0]
      = some (strOf "aONEbTWOc") := by
  refine ⟨by decide, by decide, ?_⟩
  rw [(c1_replaceAsync_source_order_and_preservation
    (strOf "a<x>1</x>b<x>2</x>c") [⟨1, 8⟩, ⟨10, 8⟩]
    (fun i _ => if i = 0 then strOf "ONE" else strOf "TWO") [1, 0]
    (by decide) (by decide)).1]
  decide

theorem findIdxFrom_isPrefixOf (pat : Str) :
    ∀ (s : Str) (j : Nat), findIdxFrom pat s = some j →
      pat.isPrefixOf (s.drop j) = true := by
  intro s
  induction s with
  | nil =>
    intro j h
    simp only [findIdxFrom] at h
    rcases Decidable.em (pat = []) with hp | hp
    · rw [if_pos hp] at h
      cases h
      simp [hp, List.isPrefixOf_iff_prefix]
    · rw [if_neg hp] at h
      cases h
  | cons c rest ih =>
    intro j h
    simp only [findIdxFrom] at h
    rcases Decidable.em (pat.isPrefixOf (c :: rest) = true) with hp | hp
    · rw [if_pos hp] at h
      cases h
      simpa using hp
    · rw [if_neg hp] at h
      rcases hj : findIdxFrom pat rest with _ | j'
      · rw [hj] at h; cases h
      · rw [hj] at h
        simp only [Option.map_some'] at h
        cases h
        exact ih j' hj

theorem findIdxFrom_min (pat : Str) :
    ∀ (s : Str) (j : Nat), findIdxFrom pat s = some j →
      ∀ k, k < j → pat.isPrefixOf (s.drop k) = false := by
  intro s
  induction s with
  | nil =>
    intro j h k hk
    simp only [findIdxFrom] at h
    rcases Decidable.em (pat = []) with hp | hp
    · rw [if_pos hp] at h; cases h; omega
    · rw [if_neg hp] at h; cases h
  | cons c rest ih =>
    intro j h k hk
    simp only [findIdxFrom] at h
    rcases Decidable.em (pat.isPrefixOf (c :: rest) = true) with hp | hp
    · rw [if_pos hp] at h; cases h; omega
    · rw [if_neg hp] at h
      rcases hj : findIdxFrom pat rest with _ | j'
      · rw [hj] at h; cases h
      · rw [hj] at h
        simp only [Option.map_some'] at h
        cases h
        cases k with
        | zero => exact Bool.eq_false_iff.mpr hp
        | succ k' => exact ih j' hj k' (by omega)

theorem findIdxFrom_le_length (pat : Str) :
    ∀ (s : Str) (j : Nat), findIdxFrom pat s = some j → j ≤ s.length := by
  intro s
  induction s with
  | nil =>
    intro j h
    simp only [findIdxFrom] at h
    rcases Decidable.em (pat = []) with hp | hp
    · rw [if_pos hp] at h; cases h; simp
    · rw [if_neg hp] at h; cases h
  | cons c rest ih =>
    intro j h
    simp only [findIdxFrom] at h
    rcases Decidable.em (pat.isPrefixOf (c :: rest) = true) with hp | hp
    · rw [if_pos hp] at h; cases h; simp
    · rw [if_neg hp] at h
      rcases hj : findIdxFrom pat rest with _ | j'
      · rw [hj] at h; cases h
      · rw [hj] at h
        simp only [Option.map_some'] at h
        cases h
        have := ih j' hj
        rw [List.length_cons]
        omega

theorem containsSub_take_findIdx (pat : Str) (s : Str) (j : Nat)
    (hfind : findIdxFrom pat s = some j) (hne : pat ≠ []) :
    containsSub pat (s.take j) = false := by
  unfold containsSub
  rcases hk : findIdxFrom pat (s.take j) with _ | k
  · rfl
  · exfalso
    have hpre : pat.isPrefixOf ((s.take j).drop k) = true :=
      findIdxFrom_isPrefixOf pat (s.take j) k hk
    have hjlen : j ≤ s.length := findIdxFrom_le_length pat s j hfind
    have hklt : k < j := by
      by_contra hge
      push_neg at hge
      have hdropnil : (s.take j).drop k = [] := by
        apply List.drop_eq_nil_of_le
        simp
        omega
      rw [hdropnil] at hpre
      rcases pat with _ | ⟨p, ps⟩
      · exact hne rfl
      · simp [List.isPrefixOf] at hpre
    have hmin : pat.isPrefixOf (s.drop k) = false :=
      findIdxFrom_min pat s j hfind k hklt
    have htake : (s.take j).drop k = (s.drop k).take (j - k) := by
      rw [List.drop_take]
    rw [htake] at hpre
    have hwhole : pat.isPrefixOf (s.drop k) = true := by
      rw [List.isPrefixOf_iff_prefix] at hpre ⊢
      exact hpre.trans (List.take_prefix _ _)
    rw [hwhole] at hmin
    cases hmin

/-! ## C2 -/

/-- C2 as stated is false: the pattern compiled by `generateTagRegex` has
no negative lookahead, so on `<docstring>A<docstring>B</docstring>` it does
match (at index 0), and the captured body `A<docstring>B` does contain the
opening tag `<docstring>`. -/
theorem c2_counterexample :
    tagFirstMatch (strOf "docstring") (strOf "<docstring>A<docstring>B</docstring>")
      = some (0, strOf "A<docstring>B") ∧
    containsSub (openTagStr (strOf "docstring")) (strOf "A<docstring>B") = true := by
  constructor
  · decide
  · decide

/-- C2 (amended): the lazy body group never consumes across a *closing* tag
of the same name: for every tag name, every match's captured body contains
no occurrence of `</t>` (while it may well contain `<t>`, and the spec's
example does match, with body `A<docstring>B`). -/
theorem c2_tag_body_no_closing_tag (t : Str) :
    ∀ (s : Str) (i : Nat) (body : Str), tagFirstMatch t s = some (i, body) →
      containsSub (closeTagStr t) body = false := by
  intro s
  induction s with
  | nil => intro i body h; cases h
  | cons c rest ih =>
    intro i body h
    simp only [tagFirstMatch] at h
    rcases Decidable.em ((openTagStr t).isPrefixOf (c :: rest) = true) with hp | hp
    · rw [if_pos hp] at h
      rcases hj : findIdxFrom (closeTagStr t) ((c :: rest).drop (openTagStr t).length)
          with _ | j
      · rw [hj] at h
        rcases hm : tagFirstMatch t rest with _ | p
        · rw [hm] at h; cases h
        · rw [hm] at h
          simp only [Option.map_some'] at h
          cases h
          exact ih p.1 p.2 (by rw [hm])
      · rw [hj] at h
        simp only [Option.some_inj] at h
        cases h
        exact containsSub_take_findIdx _ _ _ hj (by simp [closeTagStr])
    · rw [if_neg hp] at h
      rcases hm : tagFirstMatch t rest with _ | p
      · rw [hm] at h; cases h
      · rw [hm] at h
        simp only [Option.map_some'] at h
        cases h
        exact ih p.1 p.2 (by rw [hm])

/-- Witness for the amended C2 at the spec's own example input. -/
theorem c2_tag_body_no_closing_tag_witness :
    tagFirstMatch (strOf "docstring") (strOf "<docstring>A<docstring>B</docstring>")
      = some (0, strOf "A<docstring>B") ∧
    containsSub (closeTagStr (strOf "docstring")) (strOf "A<docstring>B") = false := by
  refine ⟨by decide, ?_⟩
  exact c2_tag_body_no_closing_tag (strOf "docstring")
    (strOf "<docstring>A<docstring>B</docstring>") 0 (strOf "A<docstring>B")
    (by decide)

theorem exceptMapM_exists_error {α : Type} (f : α → Except Str Str) :
    ∀ (l : List α) (a : α), a ∈ l → (∃ e, f a = .error e) →
      ∃ e, exceptMapM f l = .error e := by
  intro l
  induction l with
  | nil => intro a ha _; cases ha
  | cons x rest ih =>
    intro a ha hfa
    obtain ⟨e, he⟩ := hfa
    rcases hx : f x with ex | vx
    · exact ⟨ex, by simp [exceptMapM, hx]⟩
    · rcases List.mem_cons.mp ha with h1 | h1
      · subst h1
        rw [hx] at he
        cases he
      · obtain ⟨e', he'⟩ := ih a h1 ⟨e, he⟩
        exact ⟨e', by simp [exceptMapM, hx, he']⟩

/-! ## C4 -/

/-- C4: a recognized `<docstring>` block whose body (after escape decoding)
lacks any of the mandatory `<name>`, `<anchor>`, `<parameters>` sub-tags
makes the whole-document docstring transform fail with an error: no spliced
output text is produced. -/
theorem c4_missing_mandatory_field_is_fatal
    (render admonitions : Str → Str) (parse : Str → DomNode) (content : Str)
    (pos : Nat) (body : Str)
    (hmem : (pos, body) ∈ tagAllMatches (strOf "docstring") content)
    (hmissing : tagCapture (strOf "name") (renderSvelteChars body) = none ∨
      tagCapture (strOf "anchor") (renderSvelteChars body) = none ∨
      tagCapture (strOf "parameters") (renderSvelteChars body) = none) :
    ∃ e, docstringMarkup render admonitions parse content = .error e := by
  have hrep : ∃ e, docstringReplacer render admonitions parse body = .error e := by
    rcases h1 : tagCapture (strOf "name") (renderSvelteChars body) with _ | n <;>
      rcases h2 : tagCapture (strOf "anchor") (renderSvelteChars body) with _ | a <;>
        rcases h3 : tagCapture (strOf "parameters") (renderSvelteChars body) with _ | sg <;>
          simp only [docstringReplacer, h1, h2, h3]
    · exact ⟨_, rfl⟩
    · exact ⟨_, rfl⟩
    · exact ⟨_, rfl⟩
    · exact ⟨_, rfl⟩
    · exact ⟨_, rfl⟩
    · exact ⟨_, rfl⟩
    · exact ⟨_, rfl⟩
    · rcases hmissing with hm | hm | hm
      · rw [h1] at hm; cases hm
      · rw [h2] at hm; cases hm
      · rw [h3] at hm; cases hm
  obtain ⟨e, he⟩ := exceptMapM_exists_error
    (fun m => docstringReplacer render admonitions parse m.2)
    (tagAllMatches (strOf "docstring") content) (pos, body) hmem hrep
  exact ⟨e, by simp only [docstringMarkup, he]⟩

/-- Witness for C4 at a concrete document whose docstring lacks `<anchor>`. -/
theorem c4_missing_mandatory_field_is_fatal_witness :
    ((0 : Nat), strOf "<name>foo</name><parameters>x</parameters>") ∈
      tagAllMatches (strOf "docstring")
        (strOf "<docstring><name>foo</name><parameters>x</parameters></docstring>") ∧
    tagCapture (strOf "anchor")
      (renderSvelteChars (strOf "<name>foo</name><parameters>x</parameters>")) = none ∧
    ∃ e, docstringMarkup id id (fun _ => DomNode.elem (strOf "root") DomList.nil)
      (strOf "<docstring><name>foo</name><parameters>x</parameters></docstring>")
      = .error e := by
  refine ⟨by decide, by decide, ?_⟩
  exact c4_missing_mandatory_field_is_fatal id id
    (fun _ => DomNode.elem (strOf "root") DomList.nil)
    (strOf "<docstring><name>foo</name><parameters>x</parameters></docstring>")
    0 (strOf "<name>foo</name><parameters>x</parameters>")
    (by decide) (Or.inr (Or.inl (by decide)))

theorem optionMapM_forall₂ {α β : Type} (f : α → Option β) :
    ∀ (l : List α) (ys : List β), optionMapM f l = some ys →
      List.Forall₂ (fun a y => f a = some y) l ys := by
  intro l
  induction l with
  | nil =>
    intro ys h
    simp only [optionMapM, Option.some_inj] at h
    cases h
    exact List.Forall₂.nil
  | cons x rest ih =>
    intro ys h
    simp only [optionMapM] at h
    rcases hx : f x with _ | y
    · rw [hx] at h; cases h
    · rcases hr : optionMapM f rest with _ | ys'
      · rw [hx, hr] at h; cases h
      · rw [hx, hr] at h
        simp only [Option.some_inj] at h
        cases h
        exact List.Forall₂.cons hx (ih ys' hr)

/-! ## C3 -/

/-- C3 as stated is false at the spec's own example: the harvested
description is the item's full inner HTML with the paragraph tags stripped,
`<strong>x</strong> (<code>int</code>) -- desc`, not the bare text
`desc`. -/
theorem c3_counterexample :
    harvestList (strOf "pkg.foo") exampleUl =
      some [⟨strOf "pkg.foo.x",
        strOf "<strong>x</strong> (<code>int</code>) -- desc", strOf "x"⟩] ∧
    (⟨strOf "pkg.foo.x",
        strOf "<strong>x</strong> (<code>int</code>) -- desc", strOf "x"⟩ : ParamDesc) ≠
      ⟨strOf "pkg.foo.x", strOf "desc", strOf "x"⟩ := by
  exact ⟨by decide, by decide⟩

/-- C3 (amended): every harvested parameter record corresponds to an
element child of the first `<ul>`: its name is the inner text of the item's
first `<strong>` descendant, its anchor the docstring anchor joined with
`"."` and the name, and its description the item's inner HTML, trimmed,
with a leading `<p>` and a trailing `</p>` each stripped when present; in
particular the example yields the single record with description
`<strong>x</strong> (<code>int</code>) -- desc`. -/
theorem c3_param_record_shape (anchor : Str) (dom ulist : DomNode)
    (rest : List DomNode) (records : List ParamDesc)
    (_hul : elemsByTag (strOf "ul") dom = ulist :: rest)
    (hhv : harvestList anchor ulist = some records) :
    List.Forall₂ (fun (childEl : DomNode) (r : ParamDesc) =>
        ∃ nameEl others, elemsByTag (strOf "strong") childEl = nameEl :: others ∧
          r.name = innerTextNode nameEl ∧
          r.anchor = anchor ++ '.' :: r.name ∧
          r.description = stripParagraphTags (trimStr (getInnerHTML childEl)))
      ((childNodesOf ulist).filter isTagNode) records := by
  have h := optionMapM_forall₂ (harvestItem anchor) _ _ hhv
  refine h.imp ?_
  intro childEl r hitem
  unfold harvestItem at hitem
  rcases hs : elemsByTag (strOf "strong") childEl with _ | ⟨nameEl, others⟩
  · rw [hs] at hitem; cases hitem
  · rw [hs] at hitem
    simp only [Option.some_inj] at hitem
    cases hitem
    exact ⟨nameEl, others, rfl, rfl, rfl, rfl⟩

/-- Witness for the amended C3 at the rendered example list. -/
theorem c3_param_record_shape_witness :
    elemsByTag (strOf "ul") (DomNode.elem (strOf "root") (.cons exampleUl .nil))
      = exampleUl :: [] ∧
    harvestList (strOf "pkg.foo") exampleUl =
      some [⟨strOf "pkg.foo.x",
        strOf "<strong>x</strong> (<code>int</code>) -- desc", strOf "x"⟩] ∧
    List.Forall₂ (fun (childEl : DomNode) (r : ParamDesc) =>
        ∃ nameEl others, elemsByTag (strOf "strong") childEl = nameEl :: others ∧
          r.name = innerTextNode nameEl ∧
          r.anchor = strOf "pkg.foo" ++ '.' :: r.name ∧
          r.description = stripParagraphTags (trimStr (getInnerHTML childEl)))
      ((childNodesOf exampleUl).filter isTagNode)
      [⟨strOf "pkg.foo.x",
        strOf "<strong>x</strong> (<code>int</code>) -- desc", strOf "x"⟩] := by
  refine ⟨by decide, by decide, ?_⟩
  exact c3_param_record_shape (strOf "pkg.foo")
    (DomNode.elem (strOf "root") (.cons exampleUl .nil)) exampleUl [] _
    (by decide) (by decide)

/-! ## C9 -/

set_option maxHeartbeats 2000000 in
set_option maxRecDepth 10000 in
/-- C9 as stated is false: a docstring whose `<paramsdesc>` renders with no
`<ul>` can still fail the whole document, e.g. when it also declares
`<paramgroups>1</paramgroups>` without the numbered group blocks (the
failed `match` of the group-title pattern throws). -/
theorem c9_counterexample :
    tagCapture (strOf "paramsdesc")
      (renderSvelteChars (strOf "<name>foo</name><anchor>a.b</anchor><parameters>[]</parameters><paramsdesc>x</paramsdesc><paramgroups>1</paramgroups>"))
      = some (strOf "x") ∧
    elemsByTag (strOf "ul")
      (paramsDescDom id id (fun _ => DomNode.elem (strOf "root") DomList.nil)
        (strOf "x")) = [] ∧
    docstringMarkup id id (fun _ => DomNode.elem (strOf "root") DomList.nil)
      (strOf "<docstring><name>foo</name><anchor>a.b</anchor><parameters>[]</parameters><paramsdesc>x</paramsdesc><paramgroups>1</paramgroups></docstring>")
      = .error (strOf "TypeError: cannot read 1 of null") := by
  exact ⟨by decide, by decide, by decide⟩

/-- C9 (amended): a docstring with the three mandatory fields, a
`<paramsdesc>` block whose rendered HTML contains no `<ul>`, and no
`<paramgroups>` declaration, is transformed without error; the emitted
component carries the mandatory head and the remaining optional fields
exactly, and no `parametersDescription` attribute is contributed. -/
theorem c9_no_ul_soft_degrades
    (render admonitions : Str → Str) (parse : Str → DomNode)
    (body0 name anchor signature pdContent : Str)
    (hname : tagCapture (strOf "name") (renderSvelteChars body0) = some name)
    (hanchor : tagCapture (strOf "anchor") (renderSvelteChars body0) = some anchor)
    (hsig : tagCapture (strOf "parameters") (renderSvelteChars body0) = some signature)
    (hpd : tagCapture (strOf "paramsdesc") (renderSvelteChars body0) = some pdContent)
    (hnoul : elemsByTag (strOf "ul")
      (paramsDescDom render admonitions parse pdContent) = [])
    (hnopg : tagCapture (strOf "paramgroups") (renderSvelteChars body0) = none) :
    docstringReplacer render admonitions parse body0 =
      .ok (docstringHead name anchor signature ++
        sourceAttr (renderSvelteChars body0) ++
        renderedAttr render (strOf "retdesc") (strOf "returnDescription")
          (renderSvelteChars body0) [] ++
        renderedAttr render (strOf "rettype") (strOf "returnType")
          (renderSvelteChars body0) [] ++
        renderedAttr render (strOf "yieldesc") (strOf "returnDescription")
          (renderSvelteChars body0) [] ++
        renderedAttr render (strOf "yieldtype") (strOf "returnType")
          (renderSvelteChars body0) (strOf " isYield=\x7btrue\x7d") ++
        renderedAttr render (strOf "raises") (strOf "raiseDescription")
          (renderSvelteChars body0) [] ++
        renderedAttr render (strOf "raisederrors") (strOf "raiseType")
          (renderSvelteChars body0) [] ++
        getSetAttr (renderSvelteChars body0) ++ strOf " />\n") := by
  have hpdpart : paramsDescPart render admonitions parse anchor
      (renderSvelteChars body0) = .ok [] := by
    simp only [paramsDescPart, hpd, hnoul]
  have hpgpart : paramGroupsPart render parse anchor
      (renderSvelteChars body0) = .ok [] := by
    simp only [paramGroupsPart, hnopg]
  have hred : docstringReplacer render admonitions parse body0 =
      .ok (docstringHead name anchor signature ++ [] ++
        sourceAttr (renderSvelteChars body0) ++
        renderedAttr render (strOf "retdesc") (strOf "returnDescription")
          (renderSvelteChars body0) [] ++
        renderedAttr render (strOf "rettype") (strOf "returnType")
          (renderSvelteChars body0) [] ++
        renderedAttr render (strOf "yieldesc") (strOf "returnDescription")
          (renderSvelteChars body0) [] ++
        renderedAttr render (strOf "yieldtype") (strOf "returnType")
          (renderSvelteChars body0) (strOf " isYield=\x7btrue\x7d") ++
        renderedAttr render (strOf "raises") (strOf "raiseDescription")
          (renderSvelteChars body0) [] ++
        renderedAttr render (strOf "raisederrors") (strOf "raiseType")
          (renderSvelteChars body0) [] ++
        getSetAttr (renderSvelteChars body0) ++ [] ++ strOf " />\n") := by
    unfold docstringReplacer
    simp only []
    rw [hname, hanchor, hsig]
    simp only [hpdpart, hpgpart]
    rfl
  rw [hred]
  simp only [List.append_nil]

set_option maxHeartbeats 2000000 in
set_option maxRecDepth 10000 in
/-- Witness for the amended C9 at a concrete docstring body. -/
theorem c9_no_ul_soft_degrades_witness :
    tagCapture (strOf "paramsdesc")
      (renderSvelteChars (strOf "<name>foo</name><anchor>a.b</anchor><parameters>[]</parameters><paramsdesc>x</paramsdesc>"))
      = some (strOf "x") ∧
    docstringReplacer id id (fun _ => DomNode.elem (strOf "root") DomList.nil)
      (strOf "<name>foo</name><anchor>a.b</anchor><parameters>[]</parameters><paramsdesc>x</paramsdesc>")
      = .ok (docstringHead (strOf "foo") (strOf "a.b") (strOf "[]") ++
        sourceAttr (renderSvelteChars (strOf "<name>foo</name><anchor>a.b</anchor><parameters>[]</parameters><paramsdesc>x</paramsdesc>")) ++
        renderedAttr id (strOf "retdesc") (strOf "returnDescription")
          (renderSvelteChars (strOf "<name>foo</name><anchor>a.b</anchor><parameters>[]</parameters><paramsdesc>x</paramsdesc>")) [] ++
        renderedAttr id (strOf "rettype") (strOf "returnType")
          (renderSvelteChars (strOf "<name>foo</name><anchor>a.b</anchor><parameters>[]</parameters><paramsdesc>x</paramsdesc>")) [] ++
        renderedAttr id (strOf "yieldesc") (strOf "returnDescription")
          (renderSvelteChars (strOf "<name>foo</name><anchor>a.b</anchor><parameters>[]</parameters><paramsdesc>x</paramsdesc>")) [] ++
        renderedAttr id (strOf "yieldtype") (strOf "returnType")
          (renderSvelteChars (strOf "<name>foo</name><anchor>a.b</anchor><parameters>[]</parameters><paramsdesc>x</paramsdesc>")) (strOf " isYield=\x7btrue\x7d") ++
        renderedAttr id (strOf "raises") (strOf "raiseDescription")
          (renderSvelteChars (strOf "<name>foo</name><anchor>a.b</anchor><parameters>[]</parameters><paramsdesc>x</paramsdesc>")) [] ++
        renderedAttr id (strOf "raisederrors") (strOf "raiseType")
          (renderSvelteChars (strOf "<name>foo</name><anchor>a.b</anchor><parameters>[]</parameters><paramsdesc>x</paramsdesc>")) [] ++
        getSetAttr (renderSvelteChars (strOf "<name>foo</name><anchor>a.b</anchor><parameters>[]</parameters><paramsdesc>x</paramsdesc>")) ++
        strOf " />\n") := by
  refine ⟨by decide, ?_⟩
  exact c9_no_ul_soft_degrades id id
    (fun _ => DomNode.elem (strOf "root") DomList.nil)
    (strOf "<name>foo</name><anchor>a.b</anchor><parameters>[]</parameters><paramsdesc>x</paramsdesc>")
    (strOf "foo") (strOf "a.b") (strOf "[]") (strOf "x")
    (by decide) (by decide) (by decide) (by decide) (by decide) (by decide)

/-! ## C5 -/

set_option maxRecDepth 10000 in
set_option maxHeartbeats 2000000 in
/-- C5: the `FrameworkContent` invocation always carries exactly the three
flags `pytorch`, `tensorflow`, `jax` in that declared order, with each flag
the presence of its variant tag in the block body (present even when
false), and one slot per present variant; in particular a block containing
only `<pt>hello</pt>` reports `pytorch={true} tensorflow={false}
jax={false}` with exactly the one pytorch slot. -/
theorem c5_frameworkcontent_flags_and_slots :
    (∀ body : Str, frameworkcontentReplacer body =
      strOf "\n\n<FrameworkContent pytorch=\x7b" ++
        boolStr (tagFirstMatch (strOf "pt") body).isSome ++
        strOf "\x7d tensorflow=\x7b" ++
        boolStr (tagFirstMatch (strOf "tf") body).isSome ++
        strOf "\x7d jax=\x7b" ++
        boolStr (tagFirstMatch (strOf "jax") body).isSome ++
        strOf "\x7d>\n" ++
        ((match tagCapture (strOf "pt") body with
          | some content => fwFragment (strOf "pytorch") content
          | none => []) ++
         (match tagCapture (strOf "tf") body with
          | some content => fwFragment (strOf "tensorflow") content
          | none => []) ++
         (match tagCapture (strOf "jax") body with
          | some content => fwFragment (strOf "jax") content
          | none => [])) ++
        strOf "\n</FrameworkContent>\n\n") ∧
    frameworkcontentReplacer (strOf "<pt>hello</pt>") =
      strOf "\n\n<FrameworkContent pytorch=\x7btrue\x7d tensorflow=\x7bfalse\x7d jax=\x7bfalse\x7d>\n" ++
        fwFragment (strOf "pytorch") (strOf "hello") ++
        strOf "\n</FrameworkContent>\n\n" := by
  constructor
  · intro body
    unfold frameworkcontentReplacer frameworkcontentFRAMEWORKS
    rcases h1 : tagCapture (strOf "pt") body with _ | c1 <;>
      rcases h2 : tagCapture (strOf "tf") body with _ | c2 <;>
        rcases h3 : tagCapture (strOf "jax") body with _ | c3 <;>
          simp only [variantLoop, h1, h2, h3, variantProps, tagCapture,
            Option.isSome_map'] at * <;>
          rcases hm1 : tagFirstMatch (strOf "pt") body with _ | p1 <;>
            rcases hm2 : tagFirstMatch (strOf "tf") body with _ | p2 <;>
              rcases hm3 : tagFirstMatch (strOf "jax") body with _ | p3 <;>
                simp_all <;> rfl
  · decide

/-! ## C6 -/

set_option maxRecDepth 100000 in
set_option maxHeartbeats 4000000 in
/-- C6 is violated by the code: `tokenizersLangPreprocess` (and
`inferenceSnippetPreprocess`) create the `FRAMEWORKS` array outside the
replacer, so the `isExist` flags set by one block persist into the next
block of the same document.  In a document whose first block contains only
`<python>` and whose second block contains only `<rust>`, the second
emitted invocation reports `python={true}` — while the same second block
processed in a document of its own reports `python={false}`. -/
theorem c6_counterexample_flags_leak :
    containsSub
      (strOf "<TokenizersLanguageContent python=\x7btrue\x7d rust=\x7btrue\x7d node=\x7bfalse\x7d>")
      (tokenizersLangMarkup
        (strOf "<tokenizerslangcontent><python>a</python></tokenizerslangcontent>X<tokenizerslangcontent><rust>b</rust></tokenizerslangcontent>"))
      = true ∧
    containsSub (strOf "python=\x7btrue\x7d")
      (tokenizersLangMarkup
        (strOf "<tokenizerslangcontent><rust>b</rust></tokenizerslangcontent>"))
      = false := by
  exact ⟨by decide, by decide⟩

theorem isStartMarker_not_isEndMarker (v : Str) (h : isStartMarker v = true) :
    isEndMarker v = false := by
  unfold isStartMarker at h
  rcases Bool.or_eq_true_iff.mp h with h1 | h1 <;>
    · simp only [decide_eq_true_eq] at h1
      subst h1
      decide

/-- The region-active bit after one flag update depends only on the node
and the previous active bit. -/
theorem stepFlags_active (fl : BodyFlags) (v : Str) :
    ((stepFlags fl v).started && !(stepFlags fl v).ended) =
      (if isEndMarker v then false
       else if isStartMarker v then true
       else fl.started && !fl.ended) := by
  rcases hS : isStartMarker v with _ | _ <;> rcases hE : isEndMarker v with _ | _ <;>
    simp only [stepFlags, hS, hE, if_true, if_false, Bool.false_eq_true] <;>
      simp_all

theorem foldl_stepFlags_active (l : List Str) :
    ((l.foldl stepFlags initialBodyFlags).started &&
      !(l.foldl stepFlags initialBodyFlags).ended) = activeRev l.reverse := by
  induction l using List.reverseRecOn with
  | nil => rfl
  | append_singleton l v ih =>
    rw [List.foldl_append, List.foldl_cons, List.foldl_nil, List.reverse_append]
    simp only [List.reverse_singleton, List.singleton_append]
    rw [stepFlags_active]
    unfold activeRev
    rcases hE : isEndMarker v with _ | _ <;> rcases hS : isStartMarker v with _ | _ <;>
      simp [hE, hS, ih]

theorem processStream_spec :
    ∀ (stream pre : List Str),
      (processStream (pre.foldl stepFlags initialBodyFlags) stream).2 =
        (List.range stream.length).map fun j =>
          let v' := deleteBareMarker (stream.getD j [])
          if activeRev ((pre ++ stream.take (j + 1)).reverse) then escapeBody v'
          else v' := by
  intro stream
  induction stream with
  | nil => intro pre; rfl
  | cons v rest ih =>
    intro pre
    have hfold : stepFlags (pre.foldl stepFlags initialBodyFlags) v =
        (pre ++ [v]).foldl stepFlags initialBodyFlags := by
      rw [List.foldl_append, List.foldl_cons, List.foldl_nil]
    have hact : ((stepFlags (pre.foldl stepFlags initialBodyFlags) v).started &&
        !(stepFlags (pre.foldl stepFlags initialBodyFlags) v).ended) =
        activeRev ((pre ++ [v]).reverse) := by
      rw [hfold, foldl_stepFlags_active]
    simp only [processStream, onTextNode]
    rw [hfold, ih (pre ++ [v])]
    rw [List.length_cons, List.range_succ_eq_map, List.map_cons, List.map_map]
    congr 1
    · simp only [List.take_succ_cons, List.take_zero]
      rw [foldl_stepFlags_active (pre ++ [v])]
      rfl
    · apply List.map_congr_left
      intro j _
      simp only [Function.comp]
      have h1 : (v :: rest).getD (j + 1) [] = rest.getD j [] := rfl
      have h2 : pre ++ (v :: rest).take (j + 1 + 1) = (pre ++ [v]) ++ rest.take (j + 1) := by
        rw [List.take_succ_cons, ← List.append_cons]
      rw [h1, h2]

theorem processStream_append (b : List Str) :
    ∀ (a : List Str) (fl : BodyFlags),
      processStream fl (a ++ b) =
        ((processStream (processStream fl a).1 b).1,
          (processStream fl a).2 ++ (processStream (processStream fl a).1 b).2) := by
  intro a
  induction a with
  | nil => intro fl; rfl
  | cons v rest ih =>
    intro fl
    simp only [List.cons_append, processStream, List.append_eq]
    rw [ih (onTextNode fl v).1]

/-! ## C7 -/

/-- C7 as stated is false: the flag pair lives at module level and is not
reset between documents, so a start sentinel seen in one document changes
the escaping applied to the next document's text nodes.  The single text
node `{` of a document is escaped when processed after a document
containing a bare start sentinel, and not escaped when its document is
processed alone. -/
theorem c7_counterexample_flags_shared_across_docs :
    (processDocs initialBodyFlags
        [[strOf "HF_DOC_BODY_START"], [strOf "\x7b"]]).2 =
      [[[]], [strOf "&#123;"]] ∧
    (processDocs initialBodyFlags [[strOf "\x7b"]]).2 = [[strOf "\x7b"]] := by
  exact ⟨by decide, by decide⟩

/-- C7 (amended): the escaping state is module-persistent, not reset per
document — processing a sequence of documents equals processing the
concatenation of their text nodes — and on a node stream every node is
escaped exactly when, scanning backwards from that node, a start sentinel
occurs before any end sentinel (`started && !ended` of the running flags),
with bare sentinel markers deleted. -/
theorem c7_body_region_escaping :
    (∀ docs : List (List Str),
      ((processDocs initialBodyFlags docs).2).flatten =
        (processStream initialBodyFlags docs.flatten).2) ∧
    (∀ stream : List Str,
      (processStream initialBodyFlags stream).2 = specOutputs stream) := by
  constructor
  · have hgen : ∀ (docs : List (List Str)) (fl : BodyFlags),
        (processDocs fl docs).2.flatten = (processStream fl docs.flatten).2 ∧
          (processDocs fl docs).1 = (processStream fl docs.flatten).1 := by
      intro docs
      induction docs with
      | nil => intro fl; exact ⟨rfl, rfl⟩
      | cons d ds ih =>
        intro fl
        simp only [processDocs, List.flatten_cons, List.flatten]
        rw [processStream_append]
        obtain ⟨h1, h2⟩ := ih (processStream fl d).1
        constructor
        · simp only [List.flatten_cons]
          rw [h1]
        · rw [h2]
    intro docs
    exact (hgen docs initialBodyFlags).1
  · intro stream
    have h := processStream_spec stream []
    simpa [specOutputs] using h

/-! ## C8 -/

/-- C8: a fenced code block containing a split delimiter is cut into the
two segments around the (first) delimiter; each segment is independently
syntax-highlighted (then template-escaped), each segment is independently
REPL-prompt-filtered and base64-encoded, and the emitted `CodeBlockFw`
carries both variants' payloads plus the wrap flag taken from the
document-level wrap marker; the prompt filter, on a segment containing a
prompt-marked line, keeps only marked and empty lines and strips the
marker. -/
theorem c8_split_highlighting
    (hl b64 : Str → Str) (doc code0 : Str) (pt : Bool) (g1 g2 : Str)
    (hsplit : codeGroups (renderSvelteChars code0) = some (pt, g1, g2)) :
    highlighter hl b64 (wrapOf doc) code0 =
      codeBlockFw (if pt then strOf "pt" else strOf "stringapi")
        (b64 (filterPromptLines g1)) (escapeTpl (hl g1))
        (if pt then strOf "tf" else strOf "readinstruction")
        (b64 (filterPromptLines g2)) (escapeTpl (hl g2)) (wrapOf doc) ∧
    (∀ seg : Str, promptGate seg = true →
      filterPromptLines seg =
        joinNl (((splitNl seg).filter (fun l => promptMatch l || l.isEmpty)).map
          (fun l => if promptMatch l then l.drop 4 else l))) := by
  constructor
  · simp only [highlighter, hsplit]
  · intro seg h
    simp only [filterPromptLines, h, if_true]

set_option maxRecDepth 10000 in
set_option maxHeartbeats 2000000 in
/-- Witness for C8 at the spec's example block
`codeA\n===PT-TF-SPLIT===\ncodeB`. -/
theorem c8_split_highlighting_witness :
    codeGroups (renderSvelteChars (strOf "codeA\n===PT-TF-SPLIT===\ncodeB")) =
      some (true, strOf "codeA", strOf "codeB") ∧
    highlighter id id (wrapOf (strOf "x")) (strOf "codeA\n===PT-TF-SPLIT===\ncodeB") =
      codeBlockFw (if true then strOf "pt" else strOf "stringapi")
        (id (filterPromptLines (strOf "codeA")))
        (escapeTpl (id (strOf "codeA")))
        (if true then strOf "tf" else strOf "readinstruction")
        (id (filterPromptLines (strOf "codeB")))
        (escapeTpl (id (strOf "codeB"))) (wrapOf (strOf "x")) := by
  refine ⟨by decide, ?_⟩
  exact (c8_split_highlighting id id (strOf "x")
    (strOf "codeA\n===PT-TF-SPLIT===\ncodeB") true (strOf "codeA") (strOf "codeB")
    (by decide)).1

/-! ## C10 -/

/-- C10: the metadata node serializes only `headings[0]`: whenever the
outline forest has a first root, the emitted script node is determined by
that root alone (roots after the first do not appear in it), and for a
document with no headings the interpolated metadata value is the literal
text `undefined`. -/
theorem c10_metadata_first_root_only :
    (∀ (hs : List (Str × Str × Nat)) (h : HeadingNode) (t : HeadingForest),
      buildOutline hs = .cons h t →
      metadataScriptNode (buildOutline hs) =
        strOf "<script context=\"module\">export const metadata = \x27" ++
          (replaceSub (strOf "\x27") (strOf "\\\x27") (jsonOfHeading h) ++
            strOf "\x27;</script>")) ∧
    metadataValue (buildOutline []) = strOf "undefined" := by
  constructor
  · intro hs h t heq
    unfold metadataScriptNode metadataValue
    rw [heq]
    simp [List.append_assoc]
  · rfl

/-- Witness for C10 at a document whose outline has two top-level roots:
the metadata mentions only the first. -/
theorem c10_metadata_first_root_only_witness :
    buildOutline [(strOf "A", strOf "a", 1), (strOf "B", strOf "b", 1)] =
      .cons (.mk (strOf "A") (strOf "a") .nil 1)
        (.cons (.mk (strOf "B") (strOf "b") .nil 1) .nil) ∧
    metadataScriptNode (buildOutline [(strOf "A", strOf "a", 1), (strOf "B", strOf "b", 1)]) =
      strOf "<script context=\"module\">export const metadata = \x27" ++
        (replaceSub (strOf "\x27") (strOf "\\\x27")
          (jsonOfHeading (.mk (strOf "A") (strOf "a") .nil 1)) ++
          strOf "\x27;</script>") := by
  refine ⟨by decide, ?_⟩
  exact (c10_metadata_first_root_only).1
    [(strOf "A", strOf "a", 1), (strOf "B", strOf "b", 1)]
    (.mk (strOf "A") (strOf "a") .nil 1)
    (.cons (.mk (strOf "B") (strOf "b") .nil 1) .nil)
    (by decide)
